import Mathlib

/-!
Shallow embedding of the go-cli command-line dispatcher.

Go strings are modelled as `List Char` (the inputs of interest are ASCII, so
Go's byte indices coincide with character indices).  Fallible Go functions
returning `(T, error)` are modelled as `Except Str T`, with the error carrying
the formatted message text.  Go maps used as sets or as the flag-metadata map
are modelled as association lists with the same lookup/insert semantics.
-/

deriving instance DecidableEq for Except

namespace Cli

/-- A Go string, modelled as a list of characters. -/
abbrev Str := List Char

/-- Converts a Lean string literal into the `Str` model. -/
def str (s : String) : Str := s.toList

/-- `var whitespaceCharacters = " \n\r\t"` from cli.go. -/
def whitespaceCharacters : Str := str " \n\r\t"

/-- `strings.HasPrefix(s, p)`: does `s` start with `p`? -/
def startsWith : Str → Str → Bool
  | _, [] => true
  | [], _ :: _ => false
  | c :: s, d :: p => c == d && startsWith s p

/-- `strings.HasSuffix(s, p)`: does `s` end with `p`? -/
def endsWith (s p : Str) : Bool := startsWith s.reverse p.reverse

/-- Helper for `strings.Index`: index of the first occurrence of `sub` in the
second argument, if any. -/
def goIndex (sub : Str) : Str → Option Nat
  | [] => if startsWith [] sub then some 0 else none
  | c :: t => if startsWith (c :: t) sub then some 0 else (goIndex sub t).map (· + 1)

/-- `strings.Index(s, sub)` (with `-1` modelled as `none`). -/
def stringsIndex (s sub : Str) : Option Nat := goIndex sub s

/-- `strings.ContainsAny(s, chars)`. -/
def containsAny (s chars : Str) : Bool := s.any (fun c => chars.contains c)

/-- `strings.TrimLeft(s, cutset)`. -/
def trimLeft (s cutset : Str) : Str := s.dropWhile (fun c => cutset.contains c)

/-- `strings.TrimRight(s, cutset)`. -/
def trimRight (s cutset : Str) : Str := (s.reverse.dropWhile (fun c => cutset.contains c)).reverse

/-- `strings.Trim(s, cutset)`. -/
def trim (s cutset : Str) : Str := trimRight (trimLeft s cutset) cutset

/-- `strings.Split(s, " ")`: split on every single space; adjacent separators
produce empty tokens, and the result is never the empty list. -/
def splitSp : Str → List Str
  | [] => [[]]
  | c :: rest =>
    if c = ' ' then [] :: splitSp rest
    else
      match splitSp rest with
      | t :: ts => (c :: t) :: ts
      | [] => [[c]]

/-- Left-justified padding to `width` with spaces (Go's `fmt` verb `%-<w>s`). -/
def padRight (s : Str) (width : Nat) : Str := s ++ List.replicate (width - s.length) ' '

/-- variable.go: the `Variable` type. -/
structure Variable where
  Label : Str
  Required : Bool
  Default : Str
deriving DecidableEq

/-- option.go: the Go `Option` type (named `Opt` here because `Option` is a
core Lean type). -/
structure Opt where
  Label : Str
  Short : Str
  Long : Str
  Variable : Option Cli.Variable
  HelpMsg : Str
deriving DecidableEq

/-- argument.go: the `Argument` type (its bound `executable`/`help` closures
are modelled by the standalone functions further down). -/
structure Argument where
  Label : Str
  Options : List Opt
  ExecFunc : Str
  HelpMsg : Str
deriving DecidableEq

/-- command.go: the `Command` type. -/
structure Command where
  Label : Str
  Arguments : List Argument
deriving DecidableEq

/-- config.go: the `Config` type (the `init`/`exit`/`help` closures installed
by `LoadConfig` are modelled by the standalone functions further down). -/
structure Config where
  Prompt : Str
  Commands : List Command
  ExitCmd : Str
  HelpCmd : Str
deriving DecidableEq

/-- flags.go: `flagMetadata` (Go field `variable` is named `value` because
`variable` is a Lean keyword). -/
structure flagMetadata where
  isset : Bool
  hasVar : Bool
  value : Str
deriving DecidableEq

/-- Lookup in the flag-metadata map (first matching key). -/
def mlookup : List (Str × flagMetadata) → Str → Option flagMetadata
  | [], _ => none
  | (k, v) :: rest, l => if k = l then some v else mlookup rest l

/-- Go map assignment `m[k] = v`: replace the binding if present, else add it. -/
def upsert : List (Str × flagMetadata) → Str → flagMetadata → List (Str × flagMetadata)
  | [], k, v => [(k, v)]
  | (k', v') :: rest, k, v => if k' = k then (k, v) :: rest else (k', v') :: upsert rest k v

/-- flags.go: the `Flags` type. -/
structure Flags where
  mapping : List (Str × flagMetadata)
deriving DecidableEq

/-- flags.go: `Flags.Exists`. -/
def Flags.Exists (flags : Flags) (label : Str) : Bool :=
  (mlookup flags.mapping label).isSome

/-- flags.go: `Flags.IsSet`. -/
def Flags.IsSet (flags : Flags) (label : Str) : Bool :=
  match mlookup flags.mapping label with
  | none => false
  | some meta => meta.isset

/-- flags.go: `Flags.GetVar`. -/
def Flags.GetVar (flags : Flags) (label : Str) : Str × Bool :=
  match mlookup flags.mapping label with
  | none => ([], false)
  | some meta =>
    if meta.isset && meta.hasVar then (meta.value, true) else ([], false)

/-- validate.go: `Variable.validate`. -/
def Variable.validate (va : Cli.Variable) : Except Str Unit :=
  if va.Label = [] then .error (str "empty variable label detected")
  else if containsAny va.Label (str "\n\r\t") then
    .error (str "invalid variable label \"" ++ va.Label ++ str "\", invalid whitespace characters detected")
  else .ok ()

/-- validate.go: the `opt.Short != ""` block of `Option.validate`. -/
def shortChecks (opt : Opt) : Except Str Unit :=
  if opt.Short = [] then .ok ()
  else if startsWith opt.Short (str "-") = false then
    .error (str "invalid option short \"" ++ opt.Short ++ str "\", must start with a single dash (-)")
  else if opt.Short.length ≠ 2 then
    .error (str "invalid option short \"" ++ opt.Short ++ str "\", must be a single dash (-) followed by a single character")
  else if containsAny (opt.Short.drop 1) (str " \n\r\t") then
    .error (str "invalid option short \"" ++ opt.Short ++ str "\", whitespace characters detected")
  else if containsAny (opt.Short.drop 1) (str "[]\x7b\x7d()-=") then
    .error (str "invalid option short \"" ++ opt.Short ++ str "\", invalid characters detected")
  else .ok ()

/-- validate.go: the `opt.Long != ""` block of `Option.validate`. -/
def longChecks (opt : Opt) : Except Str Unit :=
  if opt.Long = [] then .ok ()
  else if startsWith opt.Long (str "--") = false then
    .error (str "invalid option long \"" ++ opt.Long ++ str "\", must start with a double dash (--)")
  else if opt.Long.length = 2 then
    .error (str "invalid option long \"" ++ opt.Long ++ str "\", must be longer than two characters")
  else if containsAny opt.Long (str "\n\r\t") then
    .error (str "invalid option long \"" ++ opt.Long ++ str "\", special whitespace characters detected")
  else if containsAny opt.Long (str "[]\x7b\x7d()=") then
    .error (str "invalid option long \"" ++ opt.Long ++ str "\", invalid characters detected")
  else .ok ()

/-- validate.go: `Option.validate`. -/
def Opt.validate (opt : Opt) : Except Str Unit :=
  if opt.Label = [] then .error (str "empty option label detected")
  else if containsAny opt.Label (str "\n\r\t") then
    .error (str "invalid option label \"" ++ opt.Label ++ str "\", invalid whitespace characters detected")
  else if opt.Short = [] ∧ opt.Long = [] then
    .error (str "at least one of option short or option long must be provided")
  else
    match shortChecks opt with
    | .error e => .error e
    | .ok _ =>
      match longChecks opt with
      | .error e => .error e
      | .ok _ =>
        match opt.Variable with
        | none => .ok ()
        | some v =>
          match Variable.validate v with
          | .error e => .error (str "option \"" ++ opt.Label ++ str "\", " ++ e)
          | .ok _ => .ok ()

/-- validate.go: the option loop of `Argument.validate`, carrying the three
seen-sets (Go `map[string]bool`, modelled as lists). -/
def checkOptions (argLabel : Str) : List Opt → List Str → List Str → List Str → Except Str Unit
  | [], _, _, _ => .ok ()
  | o :: rest, labels, shorts, longs =>
    match o.validate with
    | .error e => .error (str "argument \"" ++ argLabel ++ str "\", " ++ e)
    | .ok _ =>
      if o.Label ∈ labels then
        .error (str "argument \"" ++ argLabel ++ str "\", multiple occurrences of the option label \"" ++ o.Label ++ str "\"")
      else if o.Short ≠ [] ∧ o.Short ∈ shorts then
        .error (str "argument \"" ++ argLabel ++ str "\", multiple occurrences of the option short \"" ++ o.Short ++ str "\"")
      else if o.Long ≠ [] ∧ o.Long ∈ longs then
        .error (str "argument \"" ++ argLabel ++ str "\", multiple occurrences of the option long \"" ++ o.Long ++ str "\"")
      else
        checkOptions argLabel rest (o.Label :: labels)
          (if o.Short ≠ [] then o.Short :: shorts else shorts)
          (if o.Long ≠ [] then o.Long :: longs else longs)

/-- validate.go: `Argument.validate`. -/
def Argument.validate (arg : Argument) : Except Str Unit :=
  if containsAny arg.Label (str "\n\r\t") then
    .error (str "invalid argument label \"" ++ arg.Label ++ str "\", invalid special whitespace characters detected")
  else if trimLeft arg.Label (str " ") ≠ arg.Label then
    .error (str "invalid argument label \"" ++ arg.Label ++ str "\", spaces detected at start")
  else if trimRight arg.Label (str " ") ≠ arg.Label then
    .error (str "invalid argument label \"" ++ arg.Label ++ str "\", spaces detected at end")
  else checkOptions arg.Label arg.Options [] [] []

/-- validate.go: the argument loop of `Command.validate`, carrying the
seen-labels set. -/
def checkArgs (cmdLabel : Str) : List Argument → List Str → Except Str Unit
  | [], _ => .ok ()
  | a :: rest, labels =>
    match a.validate with
    | .error e => .error (str "command \"" ++ cmdLabel ++ str "\", " ++ e)
    | .ok _ =>
      if a.Label ∈ labels then
        .error (str "command \"" ++ cmdLabel ++ str "\", multiple occurrences of the argument label \"" ++ a.Label ++ str "\"")
      else checkArgs cmdLabel rest (a.Label :: labels)

/-- validate.go: `Command.validate`. -/
def Command.validate (cmd : Command) : Except Str Unit :=
  if cmd.Label = [] then .error (str "empty command label detected")
  else if containsAny cmd.Label (str " \n\r\t") then
    .error (str "invalid command label \"" ++ cmd.Label ++ str "\", invalid whitespace characters detected")
  else if cmd.Arguments = [] then
    .error (str "command \"" ++ cmd.Label ++ str "\" requires at least one argument")
  else checkArgs cmd.Label cmd.Arguments []

/-- help.go: `Argument.friendlyName`. -/
def Argument.friendlyName (arg : Argument) : Str :=
  if arg.Label = [] then str "(no arguments)" else arg.Label

/-- help.go: `describeArguments`. -/
def describeArguments (arguments : List Argument) : Str :=
  let optional := arguments.any (fun a => a.Label == [])
  let labels := (arguments.filter (fun a => a.Label != [])).map (fun a => a.Label)
  let desc := List.intercalate (str "|") labels
  let desc := if optional then str "[" ++ desc ++ str "]" else desc
  let desc := desc ++ str "\n"
  let longest := arguments.foldl
    (fun n a => if n < (Argument.friendlyName a).length then (Argument.friendlyName a).length else n) 0
  arguments.foldl
    (fun acc a => acc ++ str "\t" ++ padRight (Argument.friendlyName a) longest ++ str " " ++ a.HelpMsg ++ str "\n")
    desc

/-- help.go: the grouping loop of `describeOptions`, building the
(required-short, required-long, optional-short, optional-long) strings. -/
def describeOptionsGroups (options : List Opt) : Str × Str × Str × Str :=
  options.foldl
    (fun acc o =>
      let (reqShort, reqLong, optShort, optLong) := acc
      match o.Variable with
      | some v =>
        if v.Required then
          if o.Short ≠ [] then
            (reqShort ++ o.Short ++ str " " ++ v.Label ++ str " ", reqLong, optShort, optLong)
          else
            (reqShort, reqLong ++ o.Long ++ str "=" ++ v.Label ++ str " ", optShort, optLong)
        else
          if o.Short ≠ [] then
            (reqShort, reqLong, if optShort = [] then o.Short else optShort ++ o.Short.drop 1, optLong)
          else (reqShort, reqLong, optShort, optLong ++ o.Long ++ str " ")
      | none =>
        if o.Short ≠ [] then
          (reqShort, reqLong, if optShort = [] then o.Short else optShort ++ o.Short.drop 1, optLong)
        else (reqShort, reqLong, optShort, optLong ++ o.Long ++ str " "))
    ([], [], [], [])

/-- help.go: `describeOptions`. -/
def describeOptions (options : List Opt) : Str :=
  let g := describeOptionsGroups options
  let reqShort := trimRight g.1 (str " ")
  let reqLong := trimRight g.2.1 (str " ")
  let optShort := trimRight g.2.2.1 (str " ")
  let optLong := trimRight g.2.2.2 (str " ")
  let desc := (if reqShort ≠ [] then reqShort ++ str " " else []) ++
    (if reqLong ≠ [] then reqLong ++ str " " else []) ++
    (if optShort ≠ [] then optShort ++ str " " else []) ++
    (if optLong ≠ [] then optLong else [])
  let desc := trimRight desc (str " ") ++ str "\n"
  let longest := options.foldl (fun n o => if n < o.Long.length then o.Long.length else n) 0
  options.foldl
    (fun acc o => acc ++ str "\t" ++ o.Short ++ str " " ++ padRight o.Long longest ++ str " " ++ o.HelpMsg ++ str "\n")
    desc

/-- help.go: `Argument.helpArg`. -/
def Argument.helpArg (arg : Argument) : Str :=
  Argument.friendlyName arg ++ str " " ++ describeOptions arg.Options ++ str "\n"

/-- help.go: `Command.helpCmd` (the text behind the `command.help` closure
installed by `LoadConfig` via `createHelp`). -/
def Command.helpCmd (cmd : Command) : Str :=
  let desc := str "\nUsage: " ++ cmd.Label ++ str "\n\n" ++ cmd.Label ++ str " " ++
    describeArguments cmd.Arguments ++ str "\n"
  cmd.Arguments.foldl (fun acc a => acc ++ cmd.Label ++ str " " ++ Argument.helpArg a) desc

/-- help.go: `Command.helpArg` (the text behind the `argument.help` closure
installed by `LoadConfig` via `createArgHelp`). -/
def Command.helpArg (cmd : Command) (arg : Argument) : Str :=
  str "\nUsage: " ++ cmd.Label ++ str " " ++ Argument.friendlyName arg ++ str "\n\n" ++
    cmd.Label ++ str " " ++ Argument.helpArg arg

/-- help.go / config.go: the global help closure (`createHelp` on `Config`):
concatenation of every command's help. -/
def configHelp (cfg : Config) : Str :=
  cfg.Commands.foldl (fun acc c => acc ++ Command.helpCmd c) []

/-- command.go: the placeholder executable installed by `LoadConfig` via
`createExecutable` (this models the app before `Using` binds real methods;
all claims settled here error out before or do not depend on its output). -/
def Argument.executable (argument : Argument) (_ : Flags) : Str :=
  str "\"" ++ argument.ExecFunc ++ str "\" is not configured\n"

/-- cli.go: `App.extractCommand`. -/
def extractCommand (cfg : Config) (input : Str) : Except Str (Command × Str) :=
  let parts :=
    match stringsIndex input (str " ") with
    | none => (input, [])
    | some index => (input.take index, trimLeft (input.drop index) whitespaceCharacters)
  match cfg.Commands.find? (fun c => c.Label == parts.1) with
  | some cmd => .ok (cmd, parts.2)
  | none => .error (str "unable to find command \"" ++ parts.1 ++ str "\"")

/-- cli.go: the argument loop of `App.extractArgument`, carrying the tentative
empty-label selection. -/
def goEA (cmdLabel remaining : Str) : List Argument → Option (Argument × Str) → Except Str (Argument × Str)
  | [], tent =>
    match tent with
    | some (a, o) => .ok (a, o)
    | none => .error (str "invalid use of the \"" ++ cmdLabel ++ str "\" command, no valid argument provided")
  | arg :: rest, tent =>
    if arg.Label = [] then goEA cmdLabel remaining rest (some (arg, remaining))
    else
      match stringsIndex remaining arg.Label with
      | none => goEA cmdLabel remaining rest tent
      | some index =>
        if remaining.drop (index + arg.Label.length) ≠ [] ∧
            startsWith (remaining.drop (index + arg.Label.length)) (str " ") = false then
          goEA cmdLabel remaining rest tent
        else .ok (arg, remaining.take index ++ str " " ++ remaining.drop (index + arg.Label.length))

/-- cli.go: `App.extractArgument`. -/
def extractArgument (remainingInput : Str) (command : Command) : Except Str (Argument × Str) :=
  goEA command.Label remainingInput command.Arguments none

/-- Whether a non-empty-label argument's substring match in `remaining` is
accepted by `extractArgument` (first occurrence, trailing boundary check). -/
def argAccepts (remaining : Str) (arg : Argument) : Bool :=
  match stringsIndex remaining arg.Label with
  | none => false
  | some index =>
    (remaining.drop (index + arg.Label.length)).isEmpty ||
      startsWith (remaining.drop (index + arg.Label.length)) (str " ")

/-- Default flag metadata installed for every configured option. -/
def defaultMeta : flagMetadata := ⟨false, false, []⟩

/-- cli.go: the initialisation loop of `App.extractFlags`. -/
def initMetadata (options : List Opt) : List (Str × flagMetadata) :=
  options.foldl (fun m o => upsert m o.Label defaultMeta) []

/-- cli.go: the inner option loop of `App.extractFlags` for one `-`-prefixed
token `s` with next token `next`; yields the metadata update of the first
option whose short or long equals `s` (plus whether `expectingValue` is to be
set), `none` if no option matches, or the parse error. -/
def matchOption (s : Str) (next : Option Str) : List Opt → Except Str (Option (Str × flagMetadata × Bool))
  | [] => .ok none
  | o :: rest =>
    if o.Short ≠ s ∧ o.Long ≠ s then matchOption s next rest
    else
      match o.Variable with
      | none => .ok (some (o.Label, ⟨true, false, []⟩, false))
      | some v =>
        if o.Short = s then
          match next with
          | some nx => .ok (some (o.Label, ⟨true, true, nx⟩, true))
          | none =>
            if v.Required then
              .error (str "missing variable \"" ++ v.Label ++ str "\" for option \"" ++ o.Label ++ str "\"")
            else .ok (some (o.Label, ⟨true, true, v.Default⟩, true))
        else
          match stringsIndex s (str "=") with
          | some index => .ok (some (o.Label, ⟨true, true, s.drop index⟩, false))
          | none =>
            if v.Required then
              .error (str "required option \"" ++ o.Label ++ str "\" missing required variable \"" ++ v.Label ++ str "\"")
            else .ok (some (o.Label, ⟨true, true, v.Default⟩, false))

/-- cli.go: the token loop of `App.extractFlags`.  Note that, as in the
source, `expecting` is set when a short-form option with a variable is seen
and is never reset afterwards. -/
def scanTokens (opts : List Opt) : List Str → Bool → List (Str × flagMetadata) → Except Str (List (Str × flagMetadata))
  | [], _, m => .ok m
  | s :: rest, expecting, m =>
    if s = [] then scanTokens opts rest expecting m
    else if startsWith s (str "-") then
      match matchOption s rest.head? opts with
      | .error e => .error e
      | .ok none => scanTokens opts rest expecting m
      | .ok (some (lab, meta, exp)) => scanTokens opts rest (expecting || exp) (upsert m lab meta)
    else if expecting then scanTokens opts rest expecting m
    else .error (str "invalid text \"" ++ s ++ str "\" detected")

/-- cli.go: `App.extractFlags`. -/
def extractFlags (optionsInput : Str) (argument : Argument) : Except Str Flags :=
  match scanTokens argument.Options (splitSp optionsInput) false (initMetadata argument.Options) with
  | .error e => .error e
  | .ok m => .ok ⟨m⟩

/-- cli.go: `App.getHelpOutput`. -/
def getHelpOutput (cfg : Config) (input : Str) : Str :=
  if input = [] then configHelp cfg
  else
    match extractCommand cfg input with
    | .error e => e ++ str "\n"
    | .ok (command, remainingInput) =>
      if remainingInput = [] then Command.helpCmd command
      else
        match extractArgument remainingInput command with
        | .error e => e ++ str "\n"
        | .ok (argument, _) => Command.helpArg command argument

/-- cli.go: `App.getOutput`.  The exit branch returns the output of the
`config.exit` closure, whose `LoadConfig` placeholder returns the empty
string (and flips `app.active`, which is REPL state outside this model). -/
def getOutput (cfg : Config) (input : Str) : Str :=
  let input := trim input whitespaceCharacters
  if input = [] then []
  else if input = cfg.ExitCmd then []
  else if endsWith input cfg.HelpCmd then
    getHelpOutput cfg (trimRight (input.take (input.length - cfg.HelpCmd.length)) whitespaceCharacters)
  else
    match extractCommand cfg input with
    | .error e => e ++ str "\n"
    | .ok (command, remainingInput) =>
      match extractArgument remainingInput command with
      | .error e => e ++ str "\n"
      | .ok (argument, optionsInput) =>
        match extractFlags optionsInput argument with
        | .error e => e ++ str "\n"
        | .ok flags => Argument.executable argument flags

/-- The §8 grammar: option `readOnly` of the empty-label argument
(short `-r`, long `--read-only`, no variable). -/
def optReadOnly : Opt := ⟨str "readOnly", str "-r", str "--read-only", none, str "Short desc"⟩

/-- The §8 grammar: the required variable `var4` with default `das`. -/
def varVar4 : Cli.Variable := ⟨str "var4", true, str "das"⟩

/-- The §8 grammar: option `readOnly` of argument `daily-tasks`
(short `-r`, required variable `var4`). -/
def optReadOnlyVar : Opt := ⟨str "readOnly", str "-r", str "--read-only", some varVar4, str "Short desc"⟩

/-- The §8 grammar: the empty-label argument of command `show`. -/
def argEmpty : Argument := ⟨[], [optReadOnly], str "MyFunc", str "Show will show the stuff you want"⟩

/-- The §8 grammar: the `daily-tasks` argument of command `show`. -/
def argDaily : Argument := ⟨str "daily-tasks", [optReadOnlyVar], str "MyFunc2", str "Show will show the other stuff you want"⟩

/-- The §8 grammar: the `show` command. -/
def cmdShow : Command := ⟨str "show", [argEmpty, argDaily]⟩

/-- The §8 grammar as a full config (`helpCmd` is `help`). -/
def cfg8 : Config := ⟨str ">>> ", [cmdShow], str "leave", str "help"⟩

/-- Variant of `varVar4` with `Required` false. -/
def varVar4Opt : Cli.Variable := ⟨str "var4", false, str "das"⟩

/-- Variant of `optReadOnlyVar` whose variable is optional. -/
def optReadOnlyVarOpt : Opt := ⟨str "readOnly", str "-r", str "--read-only", some varVar4Opt, str "Short desc"⟩

/-- Variant of `argDaily` whose option's variable is optional. -/
def argDailyOpt : Argument := ⟨str "daily-tasks", [optReadOnlyVarOpt], str "MyFunc2", str "Show will show the other stuff you want"⟩

/-- An (unvalidated) option whose long form contains `=`, exercising the
long-form `=`-value extraction of `extractFlags`. -/
def optLongEq : Opt := ⟨str "al", [], str "--a=b", some ⟨str "v", false, str "d"⟩, []⟩

/-- Argument holding `optLongEq`. -/
def argLongEq : Argument := ⟨[], [optLongEq], [], []⟩

/-- Two distinct options sharing the label `x`. -/
def optDupA : Opt := ⟨str "x", str "-a", [], none, []⟩

/-- Second option sharing the label `x`. -/
def optDupB : Opt := ⟨str "x", str "-b", [], none, []⟩

/-- Two distinct arguments sharing the label `x`. -/
def argDupA : Argument := ⟨str "x", [], str "f", []⟩

/-- Second argument sharing the label `x`. -/
def argDupB : Argument := ⟨str "x", [], str "g", []⟩

/-- A command with two empty-label arguments. -/
def cmdTwoEmpty : Command := ⟨str "show", [argEmpty, argEmpty]⟩

theorem splitSp_no_space (s : Str) (h : ' ' ∉ s) : splitSp s = [s] := by
  induction s with
  | nil => rfl
  | cons c rest ih =>
    have hc : ¬(c = ' ') := fun hc => h (hc ▸ List.mem_cons_self c rest)
    have hr : ' ' ∉ rest := fun hm => h (List.mem_cons_of_mem c hm)
    simp [splitSp, hc, ih hr]

theorem mlookup_upsert (m : List (Str × flagMetadata)) (k : Str) (v : flagMetadata) (l : Str) :
    mlookup (upsert m k v) l = if k = l then some v else mlookup m l := by
  induction m with
  | nil => simp [upsert, mlookup]
  | cons p rest ih =>
    obtain ⟨k', v'⟩ := p
    by_cases hk : k' = k
    · subst hk
      by_cases hl : k' = l <;> simp [upsert, mlookup, hl]
    · by_cases hl : k' = l
      · subst hl
        have hkl : ¬(k = k') := fun h => hk h.symm
        simp [upsert, mlookup, hk, hkl]
      · simp [upsert, mlookup, hk, hl, ih]

theorem matchOption_none (s : Str) (next : Option Str) (opts : List Opt)
    (h : ∀ o ∈ opts, o.Short ≠ s ∧ o.Long ≠ s) : matchOption s next opts = .ok none := by
  induction opts with
  | nil => rfl
  | cons o rest ih =>
    have ho := h o (List.mem_cons_self o rest)
    rw [matchOption, if_pos ho]
    exact ih (fun o' ho' => h o' (List.mem_cons_of_mem o ho'))

theorem matchOption_label_mem (s : Str) (next : Option Str) (opts : List Opt)
    (lab : Str) (meta : flagMetadata) (b : Bool)
    (h : matchOption s next opts = .ok (some (lab, meta, b))) :
    lab ∈ opts.map (fun o => o.Label) := by
  induction opts with
  | nil => simp [matchOption] at h
  | cons o rest ih =>
    rw [matchOption] at h
    by_cases hc : o.Short ≠ s ∧ o.Long ≠ s
    · rw [if_pos hc] at h
      exact List.mem_cons_of_mem _ (ih h)
    · rw [if_neg hc] at h
      have : lab = o.Label := by
        repeat' split at h
        all_goals simp_all
      subst this
      exact List.mem_cons_self _ _

theorem mlookup_foldl_isSome (opts : List Opt) (m : List (Str × flagMetadata)) (l : Str) :
    (mlookup (opts.foldl (fun m o => upsert m o.Label defaultMeta) m) l).isSome = true ↔
      (l ∈ opts.map (fun o => o.Label) ∨ (mlookup m l).isSome = true) := by
  induction opts generalizing m with
  | nil => simp
  | cons o rest ih =>
    simp only [List.foldl_cons, List.map_cons, List.mem_cons]
    rw [ih, mlookup_upsert]
    by_cases hl : o.Label = l
    · simp [hl]
    · have hl' : ¬(l = o.Label) := fun h => hl h.symm
      simp [hl, hl']

theorem initMetadata_isSome (opts : List Opt) (l : Str) :
    (mlookup (initMetadata opts) l).isSome = true ↔ l ∈ opts.map (fun o => o.Label) := by
  unfold initMetadata
  rw [mlookup_foldl_isSome]
  simp [mlookup]

theorem scanTokens_keys (opts : List Opt) (toks : List Str) (exp : Bool)
    (m m' : List (Str × flagMetadata))
    (hscan : scanTokens opts toks exp m = .ok m')
    (hkeys : ∀ lab ∈ opts.map (fun o => o.Label), (mlookup m lab).isSome = true) :
    ∀ l, (mlookup m' l).isSome = (mlookup m l).isSome := by
  induction toks generalizing exp m with
  | nil =>
    rw [scanTokens] at hscan
    injection hscan with h
    subst h
    intro _; rfl
  | cons s rest ih =>
    rw [scanTokens] at hscan
    by_cases hs : s = []
    · rw [if_pos hs] at hscan
      exact ih _ _ hscan hkeys
    · rw [if_neg hs] at hscan
      by_cases hd : startsWith s (str "-") = true
      · rw [if_pos hd] at hscan
        cases hmo : matchOption s rest.head? opts with
        | error e => rw [hmo] at hscan; cases hscan
        | ok r =>
          rw [hmo] at hscan
          cases r with
          | none => exact ih _ _ hscan hkeys
          | some t =>
            obtain ⟨lab, meta, e⟩ := t
            have hlab := matchOption_label_mem _ _ _ _ _ _ hmo
            have hkeys' : ∀ la ∈ opts.map (fun o => o.Label),
                (mlookup (upsert m lab meta) la).isSome = true := by
              intro la hla
              rw [mlookup_upsert]
              by_cases hll : lab = la
              · rw [if_pos hll]; rfl
              · rw [if_neg hll]; exact hkeys la hla
            have hres := ih _ _ hscan hkeys'
            intro l
            rw [hres l, mlookup_upsert]
            by_cases hll : lab = l
            · subst hll
              simp only [if_pos rfl, Option.isSome_some]
              exact (hkeys _ hlab).symm
            · rw [if_neg hll]
      · rw [if_neg hd] at hscan
        by_cases he : exp = true
        · rw [if_pos he] at hscan
          exact ih _ _ hscan hkeys
        · rw [if_neg he] at hscan
          cases hscan

/-- C9: whenever `extractFlags` succeeds, the key set of the resulting
`Flags` mapping is exactly the set of the argument's configured option
labels: `Exists label` holds iff `label` is one of the option labels,
regardless of the input text. -/
theorem extractFlags_key_set_invariant (text : Str) (arg : Argument) (flags : Flags)
    (hok : extractFlags text arg = .ok flags) :
    ∀ l, (flags.Exists l = true ↔ l ∈ arg.Options.map (fun o => o.Label)) := by
  unfold extractFlags at hok
  cases hscan : scanTokens arg.Options (splitSp text) false (initMetadata arg.Options) with
  | error e => rw [hscan] at hok; cases hok
  | ok m =>
    rw [hscan] at hok
    injection hok with h
    subst h
    intro l
    have hkeys : ∀ lab ∈ arg.Options.map (fun o => o.Label),
        (mlookup (initMetadata arg.Options) lab).isSome = true :=
      fun lab hlab => (initMetadata_isSome arg.Options lab).2 hlab
    have := scanTokens_keys _ _ _ _ _ hscan hkeys l
    unfold Flags.Exists
    rw [this]
    exact initMetadata_isSome arg.Options l

/-- Witness for C9 at the §8 empty-label argument and input `-r`. -/
theorem extractFlags_key_set_invariant_witness :
    (⟨[(str "readOnly", ⟨true, false, []⟩)]⟩ : Flags).Exists (str "readOnly") = true ↔
      str "readOnly" ∈ argEmpty.Options.map (fun o => o.Label) :=
  extractFlags_key_set_invariant (str "-r") argEmpty
    ⟨[(str "readOnly", ⟨true, false, []⟩)]⟩ (by decide) (str "readOnly")

theorem argAccepts_false_some (rem : Str) (b : Argument) (index : Nat)
    (heq : stringsIndex rem b.Label = some index)
    (hacc : argAccepts rem b = false) :
    rem.drop (index + b.Label.length) ≠ [] ∧
      startsWith (rem.drop (index + b.Label.length)) (str " ") = false := by
  unfold argAccepts at hacc
  rw [heq] at hacc
  simp only [Bool.or_eq_false_iff, List.isEmpty_eq_false] at hacc
  exact hacc

theorem goEA_accept (cmdLabel rem : Str) (args1 args2 : List Argument) (a : Argument) (i : Nat)
    (hne : a.Label ≠ [])
    (hidx : stringsIndex rem a.Label = some i)
    (hb : rem.drop (i + a.Label.length) = [] ∨
      startsWith (rem.drop (i + a.Label.length)) (str " ") = true)
    (hprev : ∀ b ∈ args1, b.Label = [] ∨ argAccepts rem b = false) :
    ∀ tent, goEA cmdLabel rem (args1 ++ a :: args2) tent =
      .ok (a, rem.take i ++ str " " ++ rem.drop (i + a.Label.length)) := by
  induction args1 with
  | nil =>
    intro tent
    rw [List.nil_append, goEA, if_neg hne]
    split
    next heq => rw [hidx] at heq; cases heq
    next index heq =>
      rw [hidx] at heq
      injection heq with h
      subst h
      have hcond : ¬(rem.drop (i + a.Label.length) ≠ [] ∧
          startsWith (rem.drop (i + a.Label.length)) (str " ") = false) := by
        rcases hb with h | h
        · intro hc; exact hc.1 h
        · intro hc; rw [h] at hc; simp at hc
      rw [if_neg hcond]
  | cons b rest ih =>
    intro tent
    have hprev' : ∀ x ∈ rest, x.Label = [] ∨ argAccepts rem x = false :=
      fun x hx => hprev x (List.mem_cons_of_mem b hx)
    have ihr := ih hprev'
    rw [List.cons_append, goEA]
    by_cases hbl : b.Label = []
    · rw [if_pos hbl]; exact ihr _
    · rw [if_neg hbl]
      rcases hprev b (List.mem_cons_self b rest) with h | hacc
      · exact absurd h hbl
      · split
        next heq => exact ihr _
        next index heq =>
          have hf := argAccepts_false_some rem b index heq hacc
          rw [if_pos hf]
          exact ihr _

theorem goEA_tentative (cmdLabel rem : Str) (args : List Argument)
    (hno : ∀ b ∈ args, b.Label ≠ [] → argAccepts rem b = false) :
    ∀ tent, goEA cmdLabel rem args tent =
      goEA cmdLabel rem []
        (args.foldl (fun t b => if b.Label = [] then some (b, rem) else t) tent) := by
  induction args with
  | nil => intro tent; rfl
  | cons b rest ih =>
    intro tent
    have hno' : ∀ x ∈ rest, x.Label ≠ [] → argAccepts rem x = false :=
      fun x hx => hno x (List.mem_cons_of_mem b hx)
    rw [List.foldl_cons, goEA]
    by_cases hbl : b.Label = []
    · rw [if_pos hbl, if_pos hbl]
      exact ih hno' _
    · rw [if_neg hbl, if_neg hbl]
      have hacc := hno b (List.mem_cons_self b rest) hbl
      split
      next heq => exact ih hno' _
      next index heq =>
        have hf := argAccepts_false_some rem b index heq hacc
        rw [if_pos hf]
        exact ih hno' _

theorem foldl_tent_keep (rem : Str) (args : List Argument)
    (h : ∀ b ∈ args, b.Label ≠ []) (t : Option (Argument × Str)) :
    args.foldl (fun t b => if b.Label = [] then some (b, rem) else t) t = t := by
  induction args generalizing t with
  | nil => rfl
  | cons b rest ih =>
    rw [List.foldl_cons, if_neg (h b (List.mem_cons_self b rest))]
    exact ih (fun x hx => h x (List.mem_cons_of_mem b hx)) t

/-- C4: in `extractArgument`, a non-empty label found by substring search is
accepted only when the character after the matched occurrence is absent or a
space; on acceptance the label is replaced by a single space to form the
options text, the scan stops at once, and the match overrides any tentative
empty-label selection (part 1); when no non-empty label matches with a valid
boundary, the tentative empty-label argument is used with the entire
remainder as options text (part 2). -/
theorem extractArgument_spec :
    (∀ (L rem : Str) (args1 args2 : List Argument) (a : Argument) (i : Nat),
      a.Label ≠ [] → stringsIndex rem a.Label = some i →
      (rem.drop (i + a.Label.length) = [] ∨
        startsWith (rem.drop (i + a.Label.length)) (str " ") = true) →
      (∀ b ∈ args1, b.Label = [] ∨ argAccepts rem b = false) →
      extractArgument rem ⟨L, args1 ++ a :: args2⟩ =
        .ok (a, rem.take i ++ str " " ++ rem.drop (i + a.Label.length))) ∧
    (∀ (L rem : Str) (args1 args2 : List Argument) (e : Argument),
      e.Label = [] → (∀ b ∈ args2, b.Label ≠ []) →
      (∀ b ∈ args1 ++ e :: args2, b.Label ≠ [] → argAccepts rem b = false) →
      extractArgument rem ⟨L, args1 ++ e :: args2⟩ = .ok (e, rem)) := by
  constructor
  · intro L rem args1 args2 a i hne hidx hb hprev
    exact goEA_accept L rem args1 args2 a i hne hidx hb hprev none
  · intro L rem args1 args2 e hel h2 hall
    unfold extractArgument
    rw [goEA_tentative _ _ _ hall none, List.foldl_append, List.foldl_cons, if_pos hel,
      foldl_tent_keep rem args2 h2]
    rfl

/-- Witness for C4: under the §8 grammar, `daily-tasks -r` selects
`daily-tasks` (overriding the tentative empty-label match, excising the label
to `"  -r"`), and `-r` falls back to the empty-label argument with the whole
remainder as options text. -/
theorem extractArgument_spec_witness :
    extractArgument (str "daily-tasks -r") cmdShow = .ok (argDaily, str "  -r") ∧
    extractArgument (str "-r") cmdShow = .ok (argEmpty, str "-r") := by
  constructor
  · exact extractArgument_spec.1 (str "show") (str "daily-tasks -r") [argEmpty] [] argDaily 0
      (by decide) (by decide) (by decide) (by decide)
  · exact extractArgument_spec.2 (str "show") (str "-r") [] [argDaily] argEmpty
      (by decide) (by decide) (by decide)

/-- C10: `extractArgument` applies no leading boundary check: a non-empty
argument label whose first occurrence in the remainder is immediately
preceded by a non-space character is still accepted, provided the character
after the occurrence is absent or a space. -/
theorem extractArgument_no_leading_boundary (L rem : Str) (a : Argument) (i : Nat) (c : Char)
    (hne : a.Label ≠ []) (hidx : stringsIndex rem a.Label = some i)
    (hpos : 0 < i) (hprevc : rem.get? (i - 1) = some c) (hc : c ≠ ' ')
    (hb : rem.drop (i + a.Label.length) = [] ∨
      startsWith (rem.drop (i + a.Label.length)) (str " ") = true) :
    extractArgument rem ⟨L, [a]⟩ =
      .ok (a, rem.take i ++ str " " ++ rem.drop (i + a.Label.length)) :=
  goEA_accept L rem [] [] a i hne hidx hb (fun b hb' => absurd hb' (List.not_mem_nil b)) none

/-- Witness for C10: in `xdaily-tasks` the label `daily-tasks` is a proper
suffix of a longer token yet is still accepted. -/
theorem extractArgument_no_leading_boundary_witness :
    extractArgument (str "xdaily-tasks") ⟨str "show", [argDaily]⟩ = .ok (argDaily, str "x ") :=
  extractArgument_no_leading_boundary (str "show") (str "xdaily-tasks") argDaily 1 'x'
    (by decide) (by decide) (by decide) (by decide) (by decide) (by decide)

/-- C6: a `-`-prefixed token matching no configured option's short or long
form is silently ignored by the flag scan: it raises no error and leaves the
scan state (metadata and carry flag) exactly as it was (part 1); at the
`extractFlags` level such a lone token yields the untouched initial
metadata (part 2). -/
theorem extractFlags_unmatched_dash_ignored :
    (∀ (opts : List Opt) (t : Str) (rest : List Str) (exp : Bool)
        (m : List (Str × flagMetadata)),
      t ≠ [] → startsWith t (str "-") = true →
      (∀ o ∈ opts, o.Short ≠ t ∧ o.Long ≠ t) →
      scanTokens opts (t :: rest) exp m = scanTokens opts rest exp m) ∧
    (∀ (arg : Argument) (t : Str),
      t ≠ [] → startsWith t (str "-") = true → ' ' ∉ t →
      (∀ o ∈ arg.Options, o.Short ≠ t ∧ o.Long ≠ t) →
      extractFlags t arg = .ok ⟨initMetadata arg.Options⟩) := by
  have step : ∀ (opts : List Opt) (t : Str) (rest : List Str) (exp : Bool)
      (m : List (Str × flagMetadata)),
      t ≠ [] → startsWith t (str "-") = true →
      (∀ o ∈ opts, o.Short ≠ t ∧ o.Long ≠ t) →
      scanTokens opts (t :: rest) exp m = scanTokens opts rest exp m := by
    intro opts t rest exp m ht hd hno
    rw [scanTokens, if_neg ht, if_pos hd, matchOption_none t rest.head? opts hno]
  refine ⟨step, ?_⟩
  intro arg t ht hd hsp hno
  unfold extractFlags
  rw [splitSp_no_space t hsp, step arg.Options t [] false _ ht hd hno, scanTokens]

/-- Witness for C6: the token `-z` matches nothing in the §8 empty-label
argument's options and is ignored. -/
theorem extractFlags_unmatched_dash_ignored_witness :
    extractFlags (str "-z") argEmpty = .ok ⟨initMetadata argEmpty.Options⟩ :=
  extractFlags_unmatched_dash_ignored.2 argEmpty (str "-z")
    (by decide) (by decide) (by decide) (by decide)

/-- C3: a token equal to an option's long form, where the option has a
Variable and the token contains `=`, is recorded as
`{isSet := true, hasValue := true}` with value the substring of the token
from the `=` character onward, including the separator itself. -/
theorem extractFlags_long_form_value_includes_separator (arg : Argument)
    (lab sh lo hm : Str) (v : Cli.Variable) (idx : Nat)
    (hopts : arg.Options = [⟨lab, sh, lo, some v, hm⟩])
    (hsl : sh ≠ lo) (hsp : ' ' ∉ lo) (hdash : startsWith lo (str "-") = true)
    (hne : lo ≠ []) (hidx : stringsIndex lo (str "=") = some idx) :
    extractFlags lo arg = .ok ⟨[(lab, ⟨true, true, lo.drop idx⟩)]⟩ := by
  unfold extractFlags
  rw [hopts, splitSp_no_space _ hsp]
  rw [scanTokens, if_neg hne, if_pos hdash, matchOption,
    if_neg (fun h : sh ≠ lo ∧ lo ≠ lo => h.2 rfl)]
  dsimp only
  rw [if_neg hsl, hidx]
  dsimp only
  rw [scanTokens]
  simp [initMetadata, upsert]

/-- Witness for C3 at an option whose long form is `--a=b`. -/
theorem extractFlags_long_form_value_includes_separator_witness :
    extractFlags (str "--a=b") argLongEq = .ok ⟨[(str "al", ⟨true, true, str "=b"⟩)]⟩ :=
  extractFlags_long_form_value_includes_separator argLongEq (str "al") [] (str "--a=b") []
    ⟨str "v", false, str "d"⟩ 3 rfl (by decide) (by decide) (by decide) (by decide) (by decide)

/-- C5: a short-form option token carrying a Variable with no next token in
the options text errors with the missing-variable message when the Variable
is required, and otherwise is recorded as set with the Variable's default as
its value; under the §8 grammar, `show daily-tasks -r` yields the
missing-variable parse error. -/
theorem extractFlags_short_missing_next_token (arg : Argument)
    (lab sh lo hm : Str) (v : Cli.Variable)
    (hopts : arg.Options = [⟨lab, sh, lo, some v, hm⟩])
    (hsp : ' ' ∉ sh) (hdash : startsWith sh (str "-") = true) (hne : sh ≠ []) :
    (v.Required = true → extractFlags sh arg =
      .error (str "missing variable \"" ++ v.Label ++ str "\" for option \"" ++ lab ++ str "\"")) ∧
    (v.Required = false → extractFlags sh arg =
      .ok ⟨[(lab, ⟨true, true, v.Default⟩)]⟩) ∧
    getOutput cfg8 (str "show daily-tasks -r") =
      str "missing variable \"var4\" for option \"readOnly\"\n" := by
  refine ⟨?_, ?_, by decide⟩
  all_goals
    intro hr
    unfold extractFlags
    rw [hopts, splitSp_no_space _ hsp]
    rw [scanTokens, if_neg hne, if_pos hdash, matchOption,
      if_neg (fun h : sh ≠ sh ∧ lo ≠ sh => h.1 rfl)]
    try dsimp only
    rw [if_pos rfl]
    try dsimp only
    rw [hr]
    try dsimp only
    simp [initMetadata, upsert, scanTokens]

set_option maxRecDepth 8192

/-- Witness for C5 at the §8 `daily-tasks` option (required) and its
optional variant. -/
theorem extractFlags_short_missing_next_token_witness :
    extractFlags (str "-r") argDaily =
      .error (str "missing variable \"var4\" for option \"readOnly\"") ∧
    extractFlags (str "-r") argDailyOpt =
      .ok ⟨[(str "readOnly", ⟨true, true, str "das"⟩)]⟩ := by
  constructor
  · exact (extractFlags_short_missing_next_token argDaily (str "readOnly") (str "-r")
      (str "--read-only") (str "Short desc") varVar4 rfl (by decide) (by decide) (by decide)).1 rfl
  · exact (extractFlags_short_missing_next_token argDailyOpt (str "readOnly") (str "-r")
      (str "--read-only") (str "Short desc") varVar4Opt rfl (by decide) (by decide) (by decide)).2.1 rfl

/-- C2 (code evaluation at the failing input): the claim says the bare token
`x` in `-r v x`, not immediately preceded by a short-form option, must error
as invalid text; because `expectingValue` is never reset after the first
short-form value consumption, the code instead succeeds, silently accepting
`x`. -/
theorem extractFlags_accepts_trailing_bare_token :
    extractFlags (str "-r v x") argDaily =
      .ok ⟨[(str "readOnly", ⟨true, true, str "v"⟩)]⟩ := by decide

/-- C1 (counterexample): under the §8 grammar, with `help` the configured
helpCmd, the input `show help` does not return the help text of the
empty-label Argument under `show`. -/
theorem show_help_not_argument_help :
    getOutput cfg8 (str "show help") ≠ Command.helpArg cmdShow argEmpty := by decide

/-- C1 (amended): the input `show help` short-circuits normal dispatch, but
after the help suffix is stripped no input remains beyond the command token,
so the command-level help text for `show` is returned (the concatenation of
the usage line with every argument's help), not the Argument `""` help. -/
theorem show_help_returns_command_help :
    getOutput cfg8 (str "show help") = Command.helpCmd cmdShow := by decide

theorem checkOptions_ok (al : Str) (opts : List Opt) :
    ∀ (L S G : List Str), checkOptions al opts L S G = .ok () →
    ((opts.map (fun o => o.Label)).Nodup ∧ ∀ x ∈ opts.map (fun o => o.Label), x ∉ L) ∧
    (((opts.filter (fun o => o.Short != [])).map (fun o => o.Short)).Nodup ∧
      ∀ x ∈ (opts.filter (fun o => o.Short != [])).map (fun o => o.Short), x ∉ S) ∧
    (((opts.filter (fun o => o.Long != [])).map (fun o => o.Long)).Nodup ∧
      ∀ x ∈ (opts.filter (fun o => o.Long != [])).map (fun o => o.Long), x ∉ G) := by
  induction opts with
  | nil => intro L S G _; simp
  | cons o rest ih =>
    intro L S G h
    rw [checkOptions] at h
    split at h
    next e heq => cases h
    next u heq =>
      by_cases h1 : o.Label ∈ L
      · rw [if_pos h1] at h; cases h
      rw [if_neg h1] at h
      by_cases h2 : o.Short ≠ [] ∧ o.Short ∈ S
      · rw [if_pos h2] at h; cases h
      rw [if_neg h2] at h
      by_cases h3 : o.Long ≠ [] ∧ o.Long ∈ G
      · rw [if_pos h3] at h; cases h
      rw [if_neg h3] at h
      obtain ⟨⟨hln, hlf⟩, ⟨hsn, hsf⟩, ⟨hgn, hgf⟩⟩ := ih _ _ _ h
      refine ⟨⟨?_, ?_⟩, ?_, ?_⟩
      · simp only [List.map_cons, List.nodup_cons]
        exact ⟨fun hmem => (hlf _ hmem) (List.mem_cons_self _ _), hln⟩
      · intro x hx
        simp only [List.map_cons, List.mem_cons] at hx
        rcases hx with rfl | hx
        · exact h1
        · exact fun hxL => (hlf x hx) (List.mem_cons_of_mem _ hxL)
      · by_cases hS : o.Short = []
        · have hpo : (o.Short != []) = false := by simp [hS]
          have hif : ¬(o.Short ≠ []) := fun hf => hf hS
          rw [if_neg hif] at hsf
          rw [List.filter_cons, hpo]
          exact ⟨hsn, hsf⟩
        · have hpo : (o.Short != []) = true := by simp [hS]
          rw [if_pos hS] at hsf
          have hSin : o.Short ∉ S := fun hin => h2 ⟨hS, hin⟩
          rw [List.filter_cons, hpo]
          simp only [if_true, List.map_cons]
          refine ⟨?_, ?_⟩
          · simp only [List.nodup_cons]
            exact ⟨fun hmem => (hsf _ hmem) (List.mem_cons_self _ _), hsn⟩
          · intro x hx
            simp only [List.mem_cons] at hx
            rcases hx with rfl | hx
            · exact hSin
            · exact fun hxS => (hsf x hx) (List.mem_cons_of_mem _ hxS)
      · by_cases hG : o.Long = []
        · have hpo : (o.Long != []) = false := by simp [hG]
          have hif : ¬(o.Long ≠ []) := fun hf => hf hG
          rw [if_neg hif] at hgf
          rw [List.filter_cons, hpo]
          exact ⟨hgn, hgf⟩
        · have hpo : (o.Long != []) = true := by simp [hG]
          rw [if_pos hG] at hgf
          have hGin : o.Long ∉ G := fun hin => h3 ⟨hG, hin⟩
          rw [List.filter_cons, hpo]
          simp only [if_true, List.map_cons]
          refine ⟨?_, ?_⟩
          · simp only [List.nodup_cons]
            exact ⟨fun hmem => (hgf _ hmem) (List.mem_cons_self _ _), hgn⟩
          · intro x hx
            simp only [List.mem_cons] at hx
            rcases hx with rfl | hx
            · exact hGin
            · exact fun hxG => (hgf x hx) (List.mem_cons_of_mem _ hxG)

theorem checkArgs_ok (cl : Str) (args : List Argument) :
    ∀ L : List Str, checkArgs cl args L = .ok () →
    (args.map (fun a => a.Label)).Nodup ∧ ∀ x ∈ args.map (fun a => a.Label), x ∉ L := by
  induction args with
  | nil => intro L _; simp
  | cons a rest ih =>
    intro L h
    rw [checkArgs] at h
    split at h
    next e heq => cases h
    next u heq =>
      by_cases h1 : a.Label ∈ L
      · rw [if_pos h1] at h; cases h
      · rw [if_neg h1] at h
        obtain ⟨hn, hf⟩ := ih _ h
        constructor
        · simp only [List.map_cons, List.nodup_cons]
          exact ⟨fun hmem => (hf _ hmem) (List.mem_cons_self _ _), hn⟩
        · intro x hx
          simp only [List.map_cons, List.mem_cons] at hx
          rcases hx with rfl | hx
          · exact h1
          · exact fun hxL => (hf x hx) (List.mem_cons_of_mem _ hxL)

theorem argValidate_checkOptions (a : Argument) (h : a.validate = .ok ()) :
    checkOptions a.Label a.Options [] [] [] = .ok () := by
  unfold Argument.validate at h
  split_ifs at h
  exact h

theorem cmdValidate_checkArgs (c : Command) (h : c.validate = .ok ()) :
    checkArgs c.Label c.Arguments [] = .ok () := by
  unfold Command.validate at h
  split_ifs at h
  exact h

/-- C7: if an argument's option list contains two options sharing the same
label, the same (non-empty) short, or the same (non-empty) long, validation
errors, and it does so for every permutation of that option list; likewise a
command with duplicate argument labels is rejected in every ordering. -/
theorem validate_duplicates_order_independent :
    (∀ (a : Argument) (opts' : List Opt), List.Perm opts' a.Options →
      (¬(a.Options.map (fun o => o.Label)).Nodup ∨
       ¬((a.Options.filter (fun o => o.Short != [])).map (fun o => o.Short)).Nodup ∨
       ¬((a.Options.filter (fun o => o.Long != [])).map (fun o => o.Long)).Nodup) →
      Argument.validate ⟨a.Label, opts', a.ExecFunc, a.HelpMsg⟩ ≠ .ok ()) ∧
    (∀ (c : Command) (args' : List Argument), List.Perm args' c.Arguments →
      ¬(c.Arguments.map (fun ar => ar.Label)).Nodup →
      Command.validate ⟨c.Label, args'⟩ ≠ .ok ()) := by
  constructor
  · intro a opts' hperm hdup hval
    have hco : checkOptions a.Label opts' [] [] [] = .ok () :=
      argValidate_checkOptions ⟨a.Label, opts', a.ExecFunc, a.HelpMsg⟩ hval
    have hres := checkOptions_ok a.Label opts' [] [] [] hco
    rcases hdup with hd | hd | hd
    · exact hd (((hperm.map (fun o => o.Label)).nodup_iff).1 hres.1.1)
    · exact hd ((((hperm.filter (fun o => o.Short != [])).map (fun o => o.Short)).nodup_iff).1
        hres.2.1.1)
    · exact hd ((((hperm.filter (fun o => o.Long != [])).map (fun o => o.Long)).nodup_iff).1
        hres.2.2.1)
  · intro c args' hperm hdup hval
    have hca : checkArgs c.Label args' [] = .ok () := cmdValidate_checkArgs ⟨c.Label, args'⟩ hval
    have hres := checkArgs_ok c.Label args' [] hca
    exact hdup (((hperm.map (fun ar => ar.Label)).nodup_iff).1 hres.1)

/-- Witness for C7: two options sharing label `x`, checked in swapped order,
and two arguments sharing label `x`, checked in swapped order. -/
theorem validate_duplicates_order_independent_witness :
    Argument.validate ⟨str "arg", [optDupB, optDupA], [], []⟩ ≠ .ok () ∧
    Command.validate ⟨str "show", [argDupB, argDupA]⟩ ≠ .ok () := by
  constructor
  · exact validate_duplicates_order_independent.1 ⟨str "arg", [optDupA, optDupB], [], []⟩
      [optDupB, optDupA] (List.Perm.swap optDupA optDupB []) (Or.inl (by decide))
  · exact validate_duplicates_order_independent.2 ⟨str "show", [argDupA, argDupB]⟩
      [argDupB, argDupA] (List.Perm.swap argDupA argDupB []) (by decide)

/-- C8: a command whose argument list contains two (or more) empty-label
arguments fails validation; a command with at most one empty-label argument
(the §8 `show` command) is not rejected on that ground. -/
theorem validate_empty_label_multiplicity :
    (∀ (c : Command) (pre mid post : List Argument) (a1 a2 : Argument),
      c.Arguments = pre ++ a1 :: mid ++ a2 :: post →
      a1.Label = [] → a2.Label = [] →
      Command.validate c ≠ .ok ()) ∧
    Command.validate cmdShow = .ok () := by
  constructor
  · intro c pre mid post a1 a2 hdec h1 h2 hval
    have hca := cmdValidate_checkArgs c hval
    have hres := checkArgs_ok c.Label c.Arguments [] hca
    have hnd := hres.1
    rw [hdec] at hnd
    simp only [List.map_append, List.map_cons, List.cons_append, List.append_assoc] at hnd
    have hsub : List.Sublist [a1.Label, a2.Label]
        (pre.map (fun a => a.Label) ++ a1.Label ::
          (mid.map (fun a => a.Label) ++ a2.Label :: post.map (fun a => a.Label))) := by
      refine List.Sublist.trans ?_ (List.sublist_append_right _ _)
      refine List.Sublist.cons₂ _ ?_
      rw [List.singleton_sublist]
      exact List.mem_append_right _ (List.mem_cons_self _ _)
    have hpair := hnd.sublist hsub
    rw [h1, h2] at hpair
    simp at hpair
  · decide

/-- Witness for C8: a command with two empty-label arguments is rejected. -/
theorem validate_empty_label_multiplicity_witness :
    Command.validate cmdTwoEmpty ≠ .ok () :=
  validate_empty_label_multiplicity.1 cmdTwoEmpty [] [] [] argEmpty argEmpty rfl rfl rfl

end Cli
